import Mathlib

/-!
Shallow embedding of the Crypto-Anomaly-Detection pipeline.

The core (spec §4) is `src/dataset_construction.py`: price-variation
computation, threshold classification, curve shifting, and the
interleaved-anomaly resolver, all over one ordered series.  A series is
modelled positionally: the `Close` column is a `List ℚ`, the derived
`Price_Variation` column is a `List (Option ℚ)` (`none` is pandas NaN),
and the `Anomaly` column is a `List ℕ` with the source's integer coding
(0 = Stable, 1 = Upward, 2 = Downward).

The auxiliary stages (`data_transformation.py`, `integrate_indicators.py`)
are modelled over a column-major table: a list of (name, values) pairs,
values being `Option ℚ` cells (`none` is a missing value / NaN).  The
scikit-learn RobustScaler and the pandas_ta indicator computations are
external library collaborators (spec §1, §6) and enter the embedding as
function parameters; everything else follows the Python line by line.
-/

/-- Embedding of `Close.pct_change() * 100` applied to one pair of adjacent closes:
`(cur - prev) / prev * 100`. -/
def variationStep (p c : ℚ) : Option ℚ :=
  some ((c - p) / p * 100)

/-- Embedding of `calculate_price_variation` (dataset_construction.py, lines 37-50):
`df['Price_Variation'] = df['Close'].pct_change() * 100`.  The first
entry is NaN (`none`); entry i>0 is the percent change from close i-1
to close i. -/
def calculate_price_variation : List ℚ → List (Option ℚ)
  | [] => []
  | c :: rest => none :: List.zipWith variationStep (c :: rest) rest

/-- The label a bar receives from its one-step lookahead value
`Price_Variation.shift(-1)`: the source first writes 1 where the shifted
value is `> threshold` and then writes 2 where it is `< -threshold`, so
the downward test has the last word; NaN (or an absent entry, for the
last bar) compares false in pandas and leaves the initial 0. -/
def nextLabel (t : ℚ) : Option (Option ℚ) → ℕ
  | some (some v) => if v < -t then 2 else if v > t then 1 else 0
  | _ => 0

/-- Embedding of `label_anomalies` (dataset_construction.py, lines 52-74): bar i is
labelled from `Price_Variation[i+1]` against `±threshold`. -/
def label_anomalies (pv : List (Option ℚ)) (t : ℚ) : List ℕ :=
  (List.range pv.length).map (fun i => nextLabel t (pv.get? (i + 1)))

/-- Embedding of `df.loc[lo:hi, 'Anomaly'] = label`: label-based inclusive slice
assignment on a RangeIndex; an empty slice (lo > hi) writes nothing. -/
def overwrite (lo hi : ℤ) (label : ℕ) (a : List ℕ) : List ℕ :=
  (List.range a.length).map
    (fun (i : ℕ) => if lo ≤ (i : ℤ) ∧ (i : ℤ) ≤ hi then label else a.getD i 0)

/-- One iteration of the curve-shifting loop for anomaly position `idx`:
read the (current) label at `idx` and write it over the closed window
`[max 0 (idx - shift), idx]` (dataset_construction.py, lines 90-95). -/
def shiftStep (shift : ℤ) (a : List ℕ) (idx : ℕ) : List ℕ :=
  overwrite (max 0 ((idx : ℤ) - shift)) (idx : ℤ) (a.getD idx 0) a

/-- Embedding of `anomaly_indices = df.index[df['Anomaly'] > 0].tolist()`
(dataset_construction.py, line 88): the positions with a non-stable
label, in ascending index order. -/
def anomaly_indices (a : List ℕ) : List ℕ :=
  (List.range a.length).filter (fun i => decide (0 < a.getD i 0))

/-- Embedding of `apply_curve_shifting` (dataset_construction.py, lines 76-97): the
anomaly positions are collected once, before the loop, from the input
labels, then processed in ascending index order. -/
def apply_curve_shifting (a : List ℕ) (shift : ℤ) : List ℕ :=
  (anomaly_indices a).foldl (shiftStep shift) a

/-- One iteration of the resolver loop (dataset_construction.py, lines
111-116): if positions i and i-1 hold distinct non-stable labels, both
are set to 0.  The reads see earlier mutations of this same pass: in the
source, `anomaly_series` is a view of the mutated column. -/
def resolveStep (a : List ℕ) (i : ℕ) : List ℕ :=
  if a.getD i 0 ≠ 0 ∧ a.getD (i - 1) 0 ≠ 0 ∧ a.getD i 0 ≠ a.getD (i - 1) 0 then
    (a.set i 0).set (i - 1) 0
  else a

/-- Embedding of `handle_interleaved_anomalies` (dataset_construction.py, lines
99-117): a single in-place pass `for i in range(1, len(anomaly_series))`. -/
def handle_interleaved_anomalies (a : List ℕ) : List ℕ :=
  (List.range' 1 (a.length - 1)).foldl resolveStep a

namespace DatasetConstruction

/-- Embedding of `process_file` (dataset_construction.py, lines 119-140), restricted
to its data path: the four labeling steps in order, returning the final
anomaly column. -/
def process_file (close : List ℚ) (threshold : ℚ) (shift_hours : ℤ) : List ℕ :=
  handle_interleaved_anomalies
    (apply_curve_shifting (label_anomalies (calculate_price_variation close) threshold)
      shift_hours)

end DatasetConstruction

/-- A column-major table: pandas DataFrame with named columns; a cell is
`none` when the value is missing (NaN). -/
abbrev Table := List (String × List (Option ℚ))

/-- The column names of a table, in order. -/
def colNames (df : Table) : List String := df.map Prod.fst

/-- The number of rows (taken from the first column, as all columns of a
DataFrame share one index). -/
def tableHeight (df : Table) : ℕ :=
  match df with
  | [] => 0
  | c :: _ => c.2.length

/-- Row i has no missing value in any column. -/
def rowComplete (df : Table) (i : ℕ) : Bool :=
  df.all (fun c => (c.2.getD i none).isSome)

/-- Embedding of `df.dropna()`: keep exactly the rows that are complete in every
column. -/
def dropna (df : Table) : Table :=
  let keep := (List.range (tableHeight df)).filter (fun i => rowComplete df i)
  df.map (fun c => (c.1, keep.map (fun i => c.2.getD i none)))

/-- Embedding of `Series.pct_change()` on one column: `(cur - prev) / prev`, NaN when
either neighbour is missing, NaN at the first row.  Total rational
division stands in for float division, so a zero previous value — where
pandas produces a non-finite cell (inf, or NaN for 0/0; spec §4.1 and
§7(b) treat this as non-finite propagation, and the scaler then rejects
an inf input) — is outside the faithful domain of this embedding:
the theorems that assert `pct_change` outputs carry an explicit
no-zero-cell hypothesis on the columns it is applied to, exactly as the
price-variation theorem carries `close[i-1] ≠ 0`. -/
def optDiv (p c : Option ℚ) : Option ℚ :=
  match p, c with
  | some pv, some cv => some ((cv - pv) / pv)
  | _, _ => none

/-- Embedding of `pct_change` of a whole column. -/
def pct_change : List (Option ℚ) → List (Option ℚ)
  | [] => []
  | x :: rest => none :: List.zipWith optDiv (x :: rest) rest

namespace DataTransformation

/-- data_transformation.py, line 103. -/
def exclude_columns_pct : List String := ["Datetime", "Date", "Anomaly", "Volume"]

/-- data_transformation.py, line 104. -/
def exclude_columns_scaler : List String := ["Datetime", "Date", "Anomaly"]

/-- Embedding of `compute_percent_variation` (data_transformation.py, lines 29-51):
for every column not excluded, append a new `<name>_pct_change` column
holding its percent change (the original column is kept), then
`df.dropna()`.  Column names are unique in a pandas DataFrame, so the
loop over names is rendered as a filter over the columns themselves. -/
def compute_percent_variation (df : Table) (exclude : List String) : Table :=
  dropna (df ++ (df.filter (fun c => decide (c.1 ∉ exclude))).map
    (fun c => (c.1 ++ "_pct_change", pct_change c.2)))

/-- Embedding of `robust_scaling` (data_transformation.py, lines 53-74):
`df[columns] = scaler.fit_transform(df[columns])` on every column not
excluded.  The scikit-learn RobustScaler fits each feature column
independently (median/IQR statistics); it is an external collaborator
(spec §1, §6) and is passed in as the per-column transform `scale`. -/
def robust_scaling (scale : List (Option ℚ) → List (Option ℚ)) (df : Table)
    (exclude : List String) : Table :=
  df.map (fun c => if c.1 ∈ exclude then c else (c.1, scale c.2))

/-- Embedding of `process_file` (data_transformation.py, lines 76-122), data path:
a file with neither a Datetime nor a Date column is skipped (`none`,
nothing written); otherwise percent variation then robust scaling are
applied and the result is written.  The `pd.to_datetime` conversion is
a format normalization of the time column and is the identity on the
abstract cell values. -/
def process_file (scale : List (Option ℚ) → List (Option ℚ)) (df : Table) :
    Option Table :=
  if "Datetime" ∈ colNames df ∨ "Date" ∈ colNames df then
    some (robust_scaling scale (compute_percent_variation df exclude_columns_pct)
      exclude_columns_scaler)
  else none

end DataTransformation

namespace IntegrateIndicators

/-- Embedding of `integrate_technical_indicators` (integrate_indicators.py, lines
38-103): when a time column is present the pandas_ta indicator columns
are attached (an external library computation, passed in as `addInd`);
when neither `Datetime` nor `Date` exists, the function only prints a
warning and returns the DataFrame unchanged. -/
def integrate_technical_indicators (addInd : Table → Table) (df : Table) : Table :=
  if "Datetime" ∈ colNames df ∨ "Date" ∈ colNames df then addInd df else df

/-- Embedding of `process_file` (integrate_indicators.py, lines 106-122), data path:
always succeeds on a readable table. -/
def process_file (addInd : Table → Table) (df : Table) : Option Table :=
  some (integrate_technical_indicators addInd df)

/-- The per-file behaviour of `main` (integrate_indicators.py, lines
150-169): when `process_file` returns a DataFrame, rows with any NaN are
dropped and the result is written; `none` means no output file. -/
def main_output (addInd : Table → Table) (df : Table) : Option Table :=
  (process_file addInd df).map dropna

end IntegrateIndicators

/-- The adjacency condition the resolver establishes at position k: NOT
(both k and k-1 non-stable with distinct labels). -/
def pairOK (a : List ℕ) (k : ℕ) : Prop :=
  ¬(a.getD k 0 ≠ 0 ∧ a.getD (k - 1) 0 ≠ 0 ∧ a.getD k 0 ≠ a.getD (k - 1) 0)

/-! ### Helper lemmas: list indexing -/

lemma getD_set_eq (l : List ℕ) (m v j : ℕ) :
    (l.set m v).getD j 0 = if m = j ∧ m < l.length then v else l.getD j 0 := by
  rw [List.getD_eq_getElem?_getD, List.getElem?_set]
  by_cases h : m = j
  · subst h
    by_cases h2 : m < l.length
    · simp [h2]
    · have hne : ¬(m = m ∧ m < l.length) := fun hc => h2 hc.2
      rw [if_pos rfl, if_neg h2, if_neg hne, List.getD_eq_getElem?_getD,
        List.getElem?_eq_none_iff.2 (Nat.le_of_not_lt h2)]
  · have hne : ¬(m = j ∧ m < l.length) := fun hc => h hc.1
    rw [if_neg h, if_neg hne, List.getD_eq_getElem?_getD]

/-! ### Helper lemmas: the interleaved-anomaly resolver -/

lemma length_resolveStep (a : List ℕ) (i : ℕ) : (resolveStep a i).length = a.length := by
  unfold resolveStep
  split <;> simp

lemma resolveStep_getD_or (a : List ℕ) (i j : ℕ) :
    (resolveStep a i).getD j 0 = a.getD j 0 ∨ (resolveStep a i).getD j 0 = 0 := by
  unfold resolveStep
  split
  · rw [getD_set_eq]
    split
    · exact Or.inr rfl
    · rw [getD_set_eq]
      split
      · exact Or.inr rfl
      · exact Or.inl rfl
  · exact Or.inl rfl

lemma pairOK_of_or (a b : List ℕ) (k : ℕ)
    (hor : ∀ j, b.getD j 0 = a.getD j 0 ∨ b.getD j 0 = 0) (h : pairOK a k) :
    pairOK b k := by
  rintro ⟨h1c, h2c, h3c⟩
  rcases hor k with hk | hk
  · rcases hor (k - 1) with hk1 | hk1
    · exact h ⟨hk ▸ h1c, hk1 ▸ h2c, by rw [hk, hk1] at h3c; exact h3c⟩
    · exact h2c hk1
  · exact h1c hk

lemma resolveStep_pairOK_self (a : List ℕ) (i : ℕ) : pairOK (resolveStep a i) i := by
  unfold resolveStep
  split
  · rename_i hcond
    cases i with
    | zero => exact absurd rfl hcond.2.2
    | succ m =>
      rintro ⟨h1, -, -⟩
      apply h1
      rw [getD_set_eq]
      simp only [Nat.add_sub_cancel]
      have hne : ¬(m = m + 1 ∧ m < (a.set (m + 1) 0).length) := by
        rintro ⟨hc, -⟩
        omega
      rw [if_neg hne, getD_set_eq]
      by_cases hl : m + 1 < a.length
      · rw [if_pos ⟨rfl, hl⟩]
      · have hne2 : ¬(m + 1 = m + 1 ∧ m + 1 < a.length) := fun hc => hl hc.2
        rw [if_neg hne2]
        exact List.getD_eq_default a 0 (by omega)
  · rename_i hcond
    exact hcond

lemma length_foldl_resolveStep : ∀ (L : List ℕ) (a : List ℕ),
    (L.foldl resolveStep a).length = a.length := by
  intro L
  induction L with
  | nil => intro a; rfl
  | cons i L ih =>
    intro a
    rw [List.foldl_cons, ih (resolveStep a i), length_resolveStep]

lemma foldl_resolveStep_or : ∀ (L : List ℕ) (a : List ℕ) (j : ℕ),
    (L.foldl resolveStep a).getD j 0 = a.getD j 0 ∨ (L.foldl resolveStep a).getD j 0 = 0 := by
  intro L
  induction L with
  | nil => intro a j; exact Or.inl rfl
  | cons i L ih =>
    intro a j
    rw [List.foldl_cons]
    rcases ih (resolveStep a i) j with h | h
    · rw [h]
      exact resolveStep_getD_or a i j
    · exact Or.inr h

lemma foldl_resolveStep_pairOK : ∀ (m start : ℕ) (a : List ℕ),
    (∀ k, 1 ≤ k → k < start → pairOK a k) →
    ∀ k, 1 ≤ k → k < start + m →
      pairOK ((List.range' start m).foldl resolveStep a) k := by
  intro m
  induction m with
  | zero =>
    intro start a h k h1 h2
    simpa using h k h1 (by omega)
  | succ m ih =>
    intro start a h k h1 h2
    rw [List.range'_succ, List.foldl_cons]
    apply ih (start + 1) (resolveStep a start)
    · intro q hq1 hq2
      by_cases hq : q = start
      · subst hq
        exact resolveStep_pairOK_self a q
      · exact pairOK_of_or a _ q (fun j => resolveStep_getD_or a start j)
          (h q hq1 (by omega))
    · exact h1
    · omega

lemma handle_pairOK (a : List ℕ) (k : ℕ) (h1 : 1 ≤ k) (h2 : k < a.length) :
    pairOK (handle_interleaved_anomalies a) k :=
  foldl_resolveStep_pairOK (a.length - 1) 1 a
    (fun q hq1 hq2 => absurd hq1 (by omega)) k h1 (by omega)

lemma length_handle (a : List ℕ) :
    (handle_interleaved_anomalies a).length = a.length :=
  length_foldl_resolveStep (List.range' 1 (a.length - 1)) a

lemma foldl_resolveStep_id : ∀ (L : List ℕ) (a : List ℕ),
    (∀ i ∈ L, pairOK a i) → L.foldl resolveStep a = a := by
  intro L
  induction L with
  | nil => intro a _; rfl
  | cons i L ih =>
    intro a h
    rw [List.foldl_cons]
    have hstep : resolveStep a i = a := by
      unfold resolveStep
      rw [if_neg (h i (List.mem_cons_self i L))]
    rw [hstep]
    exact ih a (fun j hj => h j (List.mem_cons_of_mem i hj))

/-! ### Claim theorems: resolver -/

/-- Claim C2: the resolver is one left-to-right in-place pass, so on the
three-bar chain [A, B, A] of alternating non-stable labels the pair
(0, 1) is zeroed first, and the pair (1, 2) is then compared against the
already-zeroed value at position 1 and does not trigger: position 2
keeps its label A.  The result is [0, 0, A]. -/
theorem resolver_sequential_chain (A B : ℕ) (hA : A ≠ 0) (hB : B ≠ 0) (hAB : A ≠ B) :
    handle_interleaved_anomalies [A, B, A] = [0, 0, A] := by
  show (List.range' 1 2).foldl resolveStep [A, B, A] = [0, 0, A]
  have hr : List.range' 1 2 = [1, 2] := rfl
  rw [hr, List.foldl_cons, List.foldl_cons, List.foldl_nil]
  have h1 : resolveStep [A, B, A] 1 = [0, 0, A] := by
    unfold resolveStep
    rw [if_pos ⟨hB, hA, Ne.symm hAB⟩]
    rfl
  rw [h1]
  unfold resolveStep
  have hneg : ¬(List.getD [0, 0, A] 2 0 ≠ 0 ∧ List.getD [0, 0, A] (2 - 1) 0 ≠ 0 ∧
      List.getD [0, 0, A] 2 0 ≠ List.getD [0, 0, A] (2 - 1) 0) := by
    rintro ⟨-, h2c, -⟩
    exact h2c rfl
  rw [if_neg hneg]

/-- Witness for C2 at A = 1, B = 2. -/
theorem resolver_sequential_chain_witness :
    handle_interleaved_anomalies [1, 2, 1] = [0, 0, 1] :=
  resolver_sequential_chain 1 2 (by decide) (by decide) (by decide)

/-- Claim C6: after `handle_interleaved_anomalies`, no position i ≥ 1
holds a non-stable label while position i-1 holds a different non-stable
label: every conflicting adjacent pair was forced to Stable. -/
theorem adjacency_invariant (a : List ℕ) (i : ℕ) (h1 : 1 ≤ i) (h2 : i < a.length) :
    ¬((handle_interleaved_anomalies a).getD i 0 ≠ 0 ∧
      (handle_interleaved_anomalies a).getD (i - 1) 0 ≠ 0 ∧
      (handle_interleaved_anomalies a).getD i 0 ≠
        (handle_interleaved_anomalies a).getD (i - 1) 0) :=
  handle_pairOK a i h1 h2

/-- Witness for C6 on the series [1, 2, 0] at i = 1. -/
theorem adjacency_invariant_witness :
    ¬((handle_interleaved_anomalies [1, 2, 0]).getD 1 0 ≠ 0 ∧
      (handle_interleaved_anomalies [1, 2, 0]).getD 0 0 ≠ 0 ∧
      (handle_interleaved_anomalies [1, 2, 0]).getD 1 0 ≠
        (handle_interleaved_anomalies [1, 2, 0]).getD 0 0) :=
  adjacency_invariant [1, 2, 0] 1 (by decide) (by decide)

/-- Claim C7: the resolver is idempotent: a second pass over an
already-resolved series changes nothing. -/
theorem resolver_idempotent (a : List ℕ) :
    handle_interleaved_anomalies (handle_interleaved_anomalies a)
      = handle_interleaved_anomalies a := by
  show (List.range' 1 ((handle_interleaved_anomalies a).length - 1)).foldl resolveStep
      (handle_interleaved_anomalies a) = handle_interleaved_anomalies a
  apply foldl_resolveStep_id
  intro i hi
  rcases List.mem_range'_1.1 hi with ⟨hi1, hi2⟩
  have hlen : (handle_interleaved_anomalies a).length = a.length := length_handle a
  exact handle_pairOK a i hi1 (by omega)

/-! ### Helper lemmas: curve shifting -/

lemma length_overwrite (lo hi : ℤ) (label : ℕ) (a : List ℕ) :
    (overwrite lo hi label a).length = a.length := by
  simp [overwrite]

lemma getD_overwrite (lo hi : ℤ) (label : ℕ) (a : List ℕ) (i : ℕ) :
    (overwrite lo hi label a).getD i 0 =
      if i < a.length ∧ lo ≤ (i : ℤ) ∧ (i : ℤ) ≤ hi then label else a.getD i 0 := by
  rw [List.getD_eq_getElem?_getD]
  unfold overwrite
  by_cases h : i < a.length
  · rw [List.getElem?_map, List.getElem?_range h]
    simp only [Option.map_some', Option.getD_some]
    by_cases hw : lo ≤ (i : ℤ) ∧ (i : ℤ) ≤ hi
    · rw [if_pos hw, if_pos ⟨h, hw⟩]
    · have hw2 : ¬(i < a.length ∧ lo ≤ (i : ℤ) ∧ (i : ℤ) ≤ hi) := fun hc => hw hc.2
      rw [if_neg hw, if_neg hw2]
  · have h1 : ((List.range a.length).map
        (fun (i : ℕ) => if lo ≤ (i : ℤ) ∧ (i : ℤ) ≤ hi then label else a.getD i 0))[i]?
        = none := by
      apply List.getElem?_eq_none_iff.2
      rw [List.length_map, List.length_range]
      omega
    have hw2 : ¬(i < a.length ∧ lo ≤ (i : ℤ) ∧ (i : ℤ) ≤ hi) := fun hc => h hc.1
    rw [h1, if_neg hw2, List.getD_eq_getElem?_getD,
      List.getElem?_eq_none_iff.2 (Nat.le_of_not_lt h)]

lemma length_shiftStep (shift : ℤ) (a : List ℕ) (idx : ℕ) :
    (shiftStep shift a idx).length = a.length :=
  length_overwrite _ _ _ a

lemma getD_shiftStep (shift : ℤ) (a : List ℕ) (idx i : ℕ) :
    (shiftStep shift a idx).getD i 0 =
      if i < a.length ∧ max 0 ((idx : ℤ) - shift) ≤ (i : ℤ) ∧ (i : ℤ) ≤ (idx : ℤ) then
        a.getD idx 0
      else a.getD i 0 :=
  getD_overwrite _ _ _ a i

lemma length_foldl_shiftStep (shift : ℤ) : ∀ (L : List ℕ) (a : List ℕ),
    (L.foldl (shiftStep shift) a).length = a.length := by
  intro L
  induction L with
  | nil => intro a; rfl
  | cons idx L ih =>
    intro a
    rw [List.foldl_cons, ih (shiftStep shift a idx), length_shiftStep]

lemma mem_anomaly_indices (a : List ℕ) (idx : ℕ) :
    idx ∈ anomaly_indices a ↔ idx < a.length ∧ 0 < a.getD idx 0 := by
  simp [anomaly_indices, List.mem_filter, List.mem_range]

lemma pairwise_anomaly_indices (a : List ℕ) :
    (anomaly_indices a).Pairwise (· < ·) :=
  (List.pairwise_lt_range a.length).filter _

lemma foldl_shiftStep_P (a0 : List ℕ) (shift : ℤ) :
    ∀ (L : List ℕ) (s : List ℕ),
      L.Pairwise (· < ·) →
      (∀ idx ∈ L, idx < a0.length ∧ 0 < a0.getD idx 0 ∧ s.getD idx 0 = a0.getD idx 0) →
      s.length = a0.length →
      (∀ i, i < a0.length →
        s.getD i 0 = a0.getD i 0 ∨
          ∃ j : ℕ, i ≤ j ∧ (j : ℤ) - (i : ℤ) ≤ shift ∧ j < a0.length ∧
            s.getD i 0 = a0.getD j 0) →
      ∀ i, i < a0.length →
        (L.foldl (shiftStep shift) s).getD i 0 = a0.getD i 0 ∨
          ∃ j : ℕ, i ≤ j ∧ (j : ℤ) - (i : ℤ) ≤ shift ∧ j < a0.length ∧
            (L.foldl (shiftStep shift) s).getD i 0 = a0.getD j 0 := by
  intro L
  induction L with
  | nil => intro s _ _ _ hP i hi; exact hP i hi
  | cons idx L ih =>
    intro s hpw hmem hlen hP i hi
    rw [List.foldl_cons]
    refine ih (shiftStep shift s idx) hpw.of_cons ?_ ?_ ?_ i hi
    · intro k hk
      rcases hmem k (List.mem_cons_of_mem idx hk) with ⟨hk1, hk2, hk3⟩
      refine ⟨hk1, hk2, ?_⟩
      rw [getD_shiftStep]
      have hlt : idx < k := List.rel_of_pairwise_cons hpw hk
      have hnw : ¬(k < s.length ∧ max 0 ((idx : ℤ) - shift) ≤ (k : ℤ) ∧
          (k : ℤ) ≤ (idx : ℤ)) := by
        rintro ⟨-, -, hc⟩
        omega
      rw [if_neg hnw]
      exact hk3
    · rw [length_shiftStep]
      exact hlen
    · intro k hk
      rw [getD_shiftStep]
      by_cases hw : k < s.length ∧ max 0 ((idx : ℤ) - shift) ≤ (k : ℤ) ∧
          (k : ℤ) ≤ (idx : ℤ)
      · rw [if_pos hw]
        rcases hmem idx (List.mem_cons_self idx L) with ⟨hi1, hi2, hi3⟩
        have hmax : (idx : ℤ) - shift ≤ (k : ℤ) :=
          le_trans (le_max_right 0 ((idx : ℤ) - shift)) hw.2.1
        have hki : (k : ℤ) ≤ (idx : ℤ) := hw.2.2
        exact Or.inr ⟨idx, by omega, by omega, hi1, hi3⟩
      · rw [if_neg hw]
        exact hP k hk

lemma foldl_shiftStep_nonzero (a0 : List ℕ) (shift : ℤ) :
    ∀ (L : List ℕ) (s : List ℕ),
      (∀ idx ∈ L, idx < a0.length ∧ a0.getD idx 0 ≠ 0) →
      s.length = a0.length →
      (∀ i, i < a0.length → a0.getD i 0 ≠ 0 → s.getD i 0 ≠ 0) →
      (∀ i, i < a0.length → a0.getD i 0 ≠ 0 →
        (L.foldl (shiftStep shift) s).getD i 0 ≠ 0)
      ∧ (∀ q, s.getD q 0 ≠ 0 → (L.foldl (shiftStep shift) s).getD q 0 ≠ 0) := by
  intro L
  induction L with
  | nil => intro s _ _ hR; exact ⟨hR, fun q h => h⟩
  | cons idx L ih =>
    intro s hmem hlen hR
    rw [List.foldl_cons]
    have hidx := hmem idx (List.mem_cons_self idx L)
    have hlab : s.getD idx 0 ≠ 0 := hR idx hidx.1 hidx.2
    have hstep : ∀ q, s.getD q 0 ≠ 0 → (shiftStep shift s idx).getD q 0 ≠ 0 := by
      intro q hq
      rw [getD_shiftStep]
      split
      · exact hlab
      · exact hq
    have hR' : ∀ i, i < a0.length → a0.getD i 0 ≠ 0 →
        (shiftStep shift s idx).getD i 0 ≠ 0 :=
      fun i hi h0 => hstep i (hR i hi h0)
    have hrec := ih (shiftStep shift s idx)
      (fun k hk => hmem k (List.mem_cons_of_mem idx hk))
      (by rw [length_shiftStep]; exact hlen) hR'
    exact ⟨hrec.1, fun q hq => hrec.2 q (hstep q hq)⟩

lemma overwrite_id (lo hi : ℤ) (label : ℕ) (a : List ℕ)
    (h : ∀ i : ℕ, i < a.length → lo ≤ (i : ℤ) → (i : ℤ) ≤ hi → label = a.getD i 0) :
    overwrite lo hi label a = a := by
  apply List.ext_getElem?
  intro i
  by_cases hlen : i < a.length
  · unfold overwrite
    rw [List.getElem?_map, List.getElem?_range hlen, List.getElem?_eq_getElem hlen]
    simp only [Option.map_some']
    congr 1
    by_cases hw : lo ≤ (i : ℤ) ∧ (i : ℤ) ≤ hi
    · rw [if_pos hw, h i hlen hw.1 hw.2, List.getD_eq_getElem a 0 hlen]
    · rw [if_neg hw, List.getD_eq_getElem a 0 hlen]
  · rw [List.getElem?_eq_none_iff.2 (Nat.le_of_not_lt hlen),
      List.getElem?_eq_none_iff.2 (by rw [length_overwrite]; omega)]

lemma shiftStep_zero (s : List ℕ) (idx : ℕ) : shiftStep 0 s idx = s := by
  unfold shiftStep
  apply overwrite_id
  intro i hi h1 h2
  have hmax : max 0 ((idx : ℤ) - 0) = (idx : ℤ) :=
    max_eq_right (by omega)
  rw [hmax] at h1
  have : i = idx := by omega
  rw [this]

lemma shiftStep_neg (shift : ℤ) (hs : shift < 0) (s : List ℕ) (idx : ℕ) :
    shiftStep shift s idx = s := by
  unfold shiftStep
  apply overwrite_id
  intro i hi h1 h2
  exfalso
  have hmax : (idx : ℤ) - shift ≤ (i : ℤ) :=
    le_trans (le_max_right 0 ((idx : ℤ) - shift)) h1
  omega

lemma foldl_of_id {f : List ℕ → ℕ → List ℕ} (hf : ∀ s idx, f s idx = s) :
    ∀ (L : List ℕ) (s : List ℕ), L.foldl f s = s := by
  intro L
  induction L with
  | nil => intro s; rfl
  | cons idx L ih =>
    intro s
    rw [List.foldl_cons, hf s idx]
    exact ih s

/-! ### Claim theorems: curve shifting -/

/-- Claim C3: after `apply_curve_shifting` with `shift_hours ≥ 0`, every
non-stable position i got its label from some pre-shift anomaly position
j with i ≤ j and j - i ≤ shift_hours; and the window of each pre-shift
anomaly position p, the closed range [max 0 (p - shift_hours), p]
clipped at index 0, is entirely non-stable in the result. -/
theorem shift_window_bound (a : List ℕ) (shift : ℤ) (hs : 0 ≤ shift) :
    (∀ i, i < a.length → (apply_curve_shifting a shift).getD i 0 ≠ 0 →
      ∃ j : ℕ, i ≤ j ∧ (j : ℤ) - (i : ℤ) ≤ shift ∧ j < a.length ∧
        a.getD j 0 = (apply_curve_shifting a shift).getD i 0)
    ∧ (∀ p, p < a.length → a.getD p 0 ≠ 0 →
      ∀ q : ℕ, max 0 ((p : ℤ) - shift) ≤ (q : ℤ) → q ≤ p →
        (apply_curve_shifting a shift).getD q 0 ≠ 0) := by
  constructor
  · intro i hi hnz
    have hP := foldl_shiftStep_P a shift (anomaly_indices a) a
      (pairwise_anomaly_indices a)
      (fun idx hidx => by
        rcases (mem_anomaly_indices a idx).1 hidx with ⟨h1, h2⟩
        exact ⟨h1, h2, rfl⟩)
      rfl (fun k hk => Or.inl rfl) i hi
    rcases hP with h | ⟨j, hj1, hj2, hj3, hj4⟩
    · exact ⟨i, le_refl i, by omega, hi, h.symm⟩
    · exact ⟨j, hj1, hj2, hj3, hj4.symm⟩
  · intro p hp h0 q hq1 hq2
    have hpmem : p ∈ anomaly_indices a :=
      (mem_anomaly_indices a p).2 ⟨hp, Nat.pos_of_ne_zero h0⟩
    obtain ⟨L1, L2, hsplit⟩ := List.append_of_mem hpmem
    have hcond : ∀ idx ∈ anomaly_indices a, idx < a.length ∧ a.getD idx 0 ≠ 0 :=
      fun idx hidx => by
        rcases (mem_anomaly_indices a idx).1 hidx with ⟨h1, h2⟩
        exact ⟨h1, Nat.pos_iff_ne_zero.1 h2⟩
    have hcond1 : ∀ idx ∈ L1, idx < a.length ∧ a.getD idx 0 ≠ 0 :=
      fun idx hidx => hcond idx (by rw [hsplit]; exact List.mem_append_left _ hidx)
    have hcond2 : ∀ idx ∈ L2, idx < a.length ∧ a.getD idx 0 ≠ 0 :=
      fun idx hidx => hcond idx
        (by rw [hsplit]; exact List.mem_append_right _ (List.mem_cons_of_mem p hidx))
    have hs1len : (L1.foldl (shiftStep shift) a).length = a.length :=
      length_foldl_shiftStep shift L1 a
    have hR1 : ∀ i, i < a.length → a.getD i 0 ≠ 0 →
        (L1.foldl (shiftStep shift) a).getD i 0 ≠ 0 :=
      (foldl_shiftStep_nonzero a shift L1 a hcond1 rfl (fun i _ h => h)).1
    have hq_pos : (shiftStep shift (L1.foldl (shiftStep shift) a) p).getD q 0
        = (L1.foldl (shiftStep shift) a).getD p 0 := by
      rw [getD_shiftStep]
      rw [if_pos ⟨by omega, hq1, by exact_mod_cast hq2⟩]
    have hq_nz : (shiftStep shift (L1.foldl (shiftStep shift) a) p).getD q 0 ≠ 0 := by
      rw [hq_pos]
      exact hR1 p hp h0
    have hR2 : ∀ i, i < a.length → a.getD i 0 ≠ 0 →
        (shiftStep shift (L1.foldl (shiftStep shift) a) p).getD i 0 ≠ 0 := by
      intro i hi hh
      rw [getD_shiftStep]
      split
      · exact hR1 p hp h0
      · exact hR1 i hi hh
    have hfin := (foldl_shiftStep_nonzero a shift L2
      (shiftStep shift (L1.foldl (shiftStep shift) a) p) hcond2
      (by rw [length_shiftStep]; exact hs1len) hR2).2 q hq_nz
    have hrw : apply_curve_shifting a shift
        = L2.foldl (shiftStep shift) (shiftStep shift (L1.foldl (shiftStep shift) a) p) := by
      unfold apply_curve_shifting
      rw [hsplit, List.foldl_append, List.foldl_cons]
    rw [hrw]
    exact hfin

/-- Witness for C3 on the series [0, 2, 0] with shift_hours = 1. -/
theorem shift_window_bound_witness :
    (∃ j : ℕ, 0 ≤ j ∧ (j : ℤ) - ((0 : ℕ) : ℤ) ≤ 1 ∧ j < (3 : ℕ) ∧
      List.getD [0, 2, 0] j 0 = (apply_curve_shifting [0, 2, 0] 1).getD 0 0)
    ∧ (apply_curve_shifting [0, 2, 0] 1).getD 0 0 ≠ 0 :=
  ⟨(shift_window_bound [0, 2, 0] 1 (by decide)).1 0 (by decide) (by decide),
   (shift_window_bound [0, 2, 0] 1 (by decide)).2 1 (by decide) (by decide) 0
     (by decide) (by decide)⟩

/-- Claim C10: `apply_curve_shifting` never writes a Stable label: every
pre-shift non-stable position stays non-stable; with shift_hours = 0 the
column is unchanged; with negative shift_hours every window is empty and
the column is unchanged. -/
theorem shift_never_stable (a : List ℕ) (shift : ℤ) :
    (∀ i, i < a.length → a.getD i 0 ≠ 0 → (apply_curve_shifting a shift).getD i 0 ≠ 0)
    ∧ (shift = 0 → apply_curve_shifting a shift = a)
    ∧ (shift < 0 → apply_curve_shifting a shift = a) := by
  refine ⟨?_, ?_, ?_⟩
  · intro i hi h0
    have hcond : ∀ idx ∈ anomaly_indices a, idx < a.length ∧ a.getD idx 0 ≠ 0 :=
      fun idx hidx => by
        rcases (mem_anomaly_indices a idx).1 hidx with ⟨h1, h2⟩
        exact ⟨h1, Nat.pos_iff_ne_zero.1 h2⟩
    exact (foldl_shiftStep_nonzero a shift (anomaly_indices a) a hcond rfl
      (fun i _ h => h)).1 i hi h0
  · intro h
    subst h
    exact foldl_of_id shiftStep_zero (anomaly_indices a) a
  · intro h
    exact foldl_of_id (shiftStep_neg shift h) (anomaly_indices a) a

/-- Witness for C10 on the series [0, 2] with shifts 1, 0 and -1. -/
theorem shift_never_stable_witness :
    (apply_curve_shifting [0, 2] 1).getD 1 0 ≠ 0
    ∧ apply_curve_shifting [0, 2] 0 = [0, 2]
    ∧ apply_curve_shifting [0, 2] (-1) = [0, 2] :=
  ⟨(shift_never_stable [0, 2] 1).1 1 (by decide) (by decide),
   (shift_never_stable [0, 2] 0).2.1 rfl,
   (shift_never_stable [0, 2] (-1)).2.2 (by decide)⟩

/-! ### Helper lemmas: price variation and classification -/

lemma zipWith_adj_getD (f : ℚ → ℚ → Option ℚ) :
    ∀ (c : ℚ) (rest : List ℚ) (j : ℕ), j < rest.length →
      (List.zipWith f (c :: rest) rest).getD j none
        = f ((c :: rest).getD j 0) ((c :: rest).getD (j + 1) 0) := by
  intro c rest
  induction rest generalizing c with
  | nil => intro j hj; simp at hj
  | cons b rest ih =>
    intro j hj
    cases j with
    | zero => rfl
    | succ m =>
      show (List.zipWith f (b :: rest) rest).getD m none
          = f ((b :: rest).getD m 0) ((b :: rest).getD (m + 1) 0)
      exact ih b m (by simpa using hj)

lemma label_anomalies_getD (pv : List (Option ℚ)) (t : ℚ) (i : ℕ) (hi : i < pv.length) :
    (label_anomalies pv t).getD i 0 = nextLabel t (pv.get? (i + 1)) := by
  unfold label_anomalies
  rw [List.getD_eq_getElem?_getD, List.getElem?_map, List.getElem?_range hi]
  rfl

/-! ### Claim theorems: price variation and classification -/

/-- Claim C5: for every series with the close column populated and i > 0
with a non-zero previous close, `calculate_price_variation` yields
(close i / close (i-1) - 1) * 100 at position i, and the first entry is
present but undefined (NaN, not zero). -/
theorem price_variation_spec (close : List ℚ) (i : ℕ) (h0 : 0 < i)
    (hi : i < close.length) (hnz : close.getD (i - 1) 0 ≠ 0) :
    (calculate_price_variation close).getD i none
        = some ((close.getD i 0 / close.getD (i - 1) 0 - 1) * 100)
    ∧ (calculate_price_variation close).get? 0 = some none := by
  cases close with
  | nil => simp at hi
  | cons c rest =>
    refine ⟨?_, rfl⟩
    obtain ⟨j, rfl⟩ : ∃ j, i = j + 1 := ⟨i - 1, by omega⟩
    simp only [Nat.add_sub_cancel] at hnz ⊢
    show (none :: List.zipWith variationStep (c :: rest) rest).getD (j + 1) none = _
    rw [List.getD_cons_succ,
      zipWith_adj_getD variationStep c rest j (by simpa using hi)]
    unfold variationStep
    congr 1
    have harith : ∀ p q : ℚ, p ≠ 0 → (q - p) / p * 100 = (q / p - 1) * 100 := by
      intro p q hp
      field_simp
    exact harith _ _ hnz

/-- Witness for C5 on close = [2, 3] at i = 1. -/
theorem price_variation_spec_witness :
    (calculate_price_variation [2, 3]).getD 1 none
        = some ((List.getD [2, 3] 1 0 / List.getD [2, 3] 0 0 - 1) * 100)
    ∧ (calculate_price_variation [2, 3]).get? 0 = some none :=
  price_variation_spec [2, 3] 1 (by decide) (by decide) (by norm_num)

/-- Claim C4: with threshold t > 0, bar i is labelled 1 exactly when
`Price_Variation[i+1]` exists and exceeds t, labelled 2 exactly when it
exists and is below -t, always receives one of {0, 1, 2}, and the last
bar (absent lookahead) is always Stable. -/
theorem classification_spec (pv : List (Option ℚ)) (t : ℚ) (ht : 0 < t) (i : ℕ)
    (hi : i < pv.length) :
    ((label_anomalies pv t).getD i 0 = 1 ↔
      ∃ v : ℚ, pv.get? (i + 1) = some (some v) ∧ t < v)
    ∧ ((label_anomalies pv t).getD i 0 = 2 ↔
      ∃ v : ℚ, pv.get? (i + 1) = some (some v) ∧ v < -t)
    ∧ ((label_anomalies pv t).getD i 0 = 0 ∨ (label_anomalies pv t).getD i 0 = 1 ∨
      (label_anomalies pv t).getD i 0 = 2)
    ∧ (i + 1 = pv.length → (label_anomalies pv t).getD i 0 = 0) := by
  rw [label_anomalies_getD pv t i hi]
  rcases hop : pv.get? (i + 1) with _ | op
  · simp [nextLabel]
  · rcases op with _ | v
    · simp [nextLabel]
    · have hlast : i + 1 = pv.length → False := by
        intro hlen
        rw [List.get?_eq_none.2 (le_of_eq hlen.symm)] at hop
        cases hop
      by_cases hdn : v < -t
      · have hval : nextLabel t (some (some v)) = 2 := by
          simp [nextLabel, hdn]
        rw [hval]
        have hnup : ¬t < v := by linarith
        refine ⟨⟨fun h => absurd h (by omega), ?_⟩,
          ⟨fun _ => ⟨v, rfl, hdn⟩, fun _ => rfl⟩,
          Or.inr (Or.inr rfl), fun hlen => (hlast hlen).elim⟩
        rintro ⟨w, hw, htw⟩
        obtain rfl : v = w := Option.some_inj.1 (Option.some_inj.1 hw)
        exact absurd htw hnup
      · by_cases hup : v > t
        · have hval : nextLabel t (some (some v)) = 1 := by
            simp [nextLabel, hdn, hup]
          rw [hval]
          refine ⟨⟨fun _ => ⟨v, rfl, hup⟩, fun _ => rfl⟩,
            ⟨fun h => absurd h (by omega), ?_⟩,
            Or.inr (Or.inl rfl), fun hlen => (hlast hlen).elim⟩
          rintro ⟨w, hw, htw⟩
          obtain rfl : v = w := Option.some_inj.1 (Option.some_inj.1 hw)
          exact absurd htw hdn
        · have hval : nextLabel t (some (some v)) = 0 := by
            simp [nextLabel, hdn, hup]
          rw [hval]
          refine ⟨⟨fun h => absurd h (by omega), ?_⟩,
            ⟨fun h => absurd h (by omega), ?_⟩,
            Or.inl rfl, fun _ => rfl⟩
          · rintro ⟨w, hw, htw⟩
            obtain rfl : v = w := Option.some_inj.1 (Option.some_inj.1 hw)
            exact absurd htw hup
          · rintro ⟨w, hw, htw⟩
            obtain rfl : v = w := Option.some_inj.1 (Option.some_inj.1 hw)
            exact absurd htw hdn

/-- Witness for C4 on Price_Variation = [none, some 5] with t = 1 at i = 0. -/
theorem classification_spec_witness :
    ((label_anomalies [none, some (5 : ℚ)] 1).getD 0 0 = 1 ↔
      ∃ v : ℚ, List.get? [none, some (5 : ℚ)] 1 = some (some v) ∧ 1 < v)
    ∧ ((label_anomalies [none, some (5 : ℚ)] 1).getD 0 0 = 2 ↔
      ∃ v : ℚ, List.get? [none, some (5 : ℚ)] 1 = some (some v) ∧ v < -1)
    ∧ ((label_anomalies [none, some (5 : ℚ)] 1).getD 0 0 = 0 ∨
      (label_anomalies [none, some (5 : ℚ)] 1).getD 0 0 = 1 ∨
      (label_anomalies [none, some (5 : ℚ)] 1).getD 0 0 = 2)
    ∧ (0 + 1 = List.length [none, some (5 : ℚ)] →
      (label_anomalies [none, some (5 : ℚ)] 1).getD 0 0 = 0) :=
  classification_spec [none, some (5 : ℚ)] 1 (by norm_num) 0 (by decide)

/-! ### Claim theorems: the worked scenario -/

/-- Claim C1, counterexample: on close prices [100, 100, 105, 100, 95, 95]
with threshold 1 and shift_hours 1, the pipeline's final anomaly column
is not [2, 2, 2, 0, 0, 0] as the spec's worked scenario states. -/
theorem worked_scenario_counterexample :
    DatasetConstruction.process_file [100, 100, 105, 100, 95, 95] 1 1
      ≠ [2, 2, 2, 0, 0, 0] := by
  have h1 : calculate_price_variation [100, 100, 105, 100, 95, 95]
      = [none, some 0, some 5, some (-100/21), some (-5), some 0] := by
    norm_num [calculate_price_variation, variationStep]
  have h2 : label_anomalies [none, some 0, some 5, some (-100/21), some (-5), some 0] 1
      = [0, 1, 2, 2, 0, 0] := by
    have hr : List.range 6 = [0, 1, 2, 3, 4, 5] := by decide
    simp only [label_anomalies, List.length_cons, List.length_nil, hr, List.map_cons,
      List.map_nil, nextLabel, List.get?]
    norm_num
  unfold DatasetConstruction.process_file
  rw [h1, h2]
  decide

/-- Claim C1, amended: on the worked scenario the price variation is
[NaN, 0, 5, -100/21, -5, 0]; classification gives [0, 1, 2, 2, 0, 0]
(Stable, Up, Down, Down, Stable, Stable); shifting in ascending order
gives [1, 2, 2, 2, 0, 0] (the Downward window of position 2 overwrites
the Upward label at position 1); the resolver zeroes the conflicting
pair at positions 0 and 1, so the final column is [0, 0, 2, 2, 0, 0]. -/
theorem worked_scenario_actual :
    calculate_price_variation [100, 100, 105, 100, 95, 95]
        = [none, some 0, some 5, some (-100/21), some (-5), some 0]
    ∧ label_anomalies (calculate_price_variation [100, 100, 105, 100, 95, 95]) 1
        = [0, 1, 2, 2, 0, 0]
    ∧ apply_curve_shifting
        (label_anomalies (calculate_price_variation [100, 100, 105, 100, 95, 95]) 1) 1
        = [1, 2, 2, 2, 0, 0]
    ∧ DatasetConstruction.process_file [100, 100, 105, 100, 95, 95] 1 1
        = [0, 0, 2, 2, 0, 0] := by
  have h1 : calculate_price_variation [100, 100, 105, 100, 95, 95]
      = [none, some 0, some 5, some (-100/21), some (-5), some 0] := by
    norm_num [calculate_price_variation, variationStep]
  have h2 : label_anomalies [none, some 0, some 5, some (-100/21), some (-5), some 0] 1
      = [0, 1, 2, 2, 0, 0] := by
    have hr : List.range 6 = [0, 1, 2, 3, 4, 5] := by decide
    simp only [label_anomalies, List.length_cons, List.length_nil, hr, List.map_cons,
      List.map_nil, nextLabel, List.get?]
    norm_num
  refine ⟨h1, ?_, ?_, ?_⟩
  · rw [h1]
    exact h2
  · rw [h1, h2]
    decide
  · unfold DatasetConstruction.process_file
    rw [h1, h2]
    decide

/-! ### Helper lemmas: table stages -/

lemma pct_change_length (xs : List (Option ℚ)) : (pct_change xs).length = xs.length := by
  cases xs with
  | nil => rfl
  | cons x rest => simp [pct_change, List.length_zipWith]

lemma zipWith_adj_getD_opt (f : Option ℚ → Option ℚ → Option ℚ) :
    ∀ (c : Option ℚ) (rest : List (Option ℚ)) (j : ℕ), j < rest.length →
      (List.zipWith f (c :: rest) rest).getD j none
        = f ((c :: rest).getD j none) ((c :: rest).getD (j + 1) none) := by
  intro c rest
  induction rest generalizing c with
  | nil => intro j hj; simp at hj
  | cons b rest ih =>
    intro j hj
    cases j with
    | zero => rfl
    | succ m =>
      show (List.zipWith f (b :: rest) rest).getD m none
          = f ((b :: rest).getD m none) ((b :: rest).getD (m + 1) none)
      exact ih b m (by simpa using hj)

lemma pct_change_getD_zero (xs : List (Option ℚ)) (h : 0 < xs.length) :
    (pct_change xs).getD 0 none = none := by
  cases xs with
  | nil => simp at h
  | cons x rest => rfl

lemma pct_change_getD_isSome (xs : List (Option ℚ)) (i : ℕ)
    (hsome : ∀ v ∈ xs, v.isSome = true) (h0 : 0 < i) (hi : i < xs.length) :
    ((pct_change xs).getD i none).isSome = true := by
  cases xs with
  | nil => simp at hi
  | cons x rest =>
    obtain ⟨j, rfl⟩ : ∃ j, i = j + 1 := ⟨i - 1, by omega⟩
    show ((none :: List.zipWith optDiv (x :: rest) rest).getD (j + 1) none).isSome = true
    rw [List.getD_cons_succ, zipWith_adj_getD_opt optDiv x rest j (by simpa using hi)]
    have hmem1 : (x :: rest).getD j none ∈ x :: rest := by
      rw [List.getD_eq_getElem _ _ (by simp only [List.length_cons] at hi ⊢; omega)]
      exact List.getElem_mem _
    have hmem2 : (x :: rest).getD (j + 1) none ∈ x :: rest := by
      rw [List.getD_eq_getElem _ _ (by simpa using hi)]
      exact List.getElem_mem _
    have h1 := hsome _ hmem1
    have h2 := hsome _ hmem2
    rcases Option.isSome_iff_exists.1 h1 with ⟨a, ha⟩
    rcases Option.isSome_iff_exists.1 h2 with ⟨b, hb⟩
    rw [ha, hb]
    rfl

lemma map_getD_range_self {α : Type} (d : α) : ∀ (xs : List α),
    (List.range xs.length).map (fun i => xs.getD i d) = xs := by
  intro xs
  induction xs with
  | nil => rfl
  | cons x rest ih =>
    rw [List.length_cons, List.range_succ_eq_map, List.map_cons, List.map_map]
    have hfun : ((fun i => (x :: rest).getD i d) ∘ Nat.succ) = fun j => rest.getD j d := by
      funext j
      rfl
    rw [hfun, ih]
    rfl

lemma map_getD_range' {α : Type} (d : α) (xs : List α) :
    (List.range' 1 (xs.length - 1)).map (fun i => xs.getD i d) = xs.tail := by
  cases xs with
  | nil => rfl
  | cons x rest =>
    simp only [List.length_cons, Nat.add_sub_cancel, List.tail_cons]
    rw [List.range'_eq_map_range, List.map_map]
    have hfun : ((fun i => (x :: rest).getD i d) ∘ (fun j => 1 + j))
        = fun j => rest.getD j d := by
      funext j
      simp [Nat.add_comm 1 j]
    rw [hfun, map_getD_range_self]

lemma keep_eq_range' (df1 : Table) (n : ℕ) (hn : 0 < n)
    (hheight : tableHeight df1 = n)
    (h0 : rowComplete df1 0 = false)
    (h1 : ∀ i, 0 < i → i < n → rowComplete df1 i = true) :
    (List.range (tableHeight df1)).filter (fun i => rowComplete df1 i)
      = List.range' 1 (n - 1) := by
  rw [hheight]
  obtain ⟨m, rfl⟩ : ∃ m, n = m + 1 := ⟨n - 1, by omega⟩
  simp only [Nat.add_sub_cancel]
  rw [List.range_eq_range' (m + 1), List.range'_succ 0 m 1, List.filter_cons]
  rw [h0]
  simp only [Bool.false_eq_true, if_false, Nat.zero_add]
  apply List.filter_eq_self.2
  intro a ha
  rcases List.mem_range'_1.1 ha with ⟨ha1, ha2⟩
  exact h1 a ha1 (by omega)

lemma dropna_eq_tails (df1 : Table) (n : ℕ) (hn : 0 < n)
    (hheight : tableHeight df1 = n)
    (hlen : ∀ c ∈ df1, c.2.length = n)
    (h0 : rowComplete df1 0 = false)
    (h1 : ∀ i, 0 < i → i < n → rowComplete df1 i = true) :
    dropna df1 = df1.map (fun c => (c.1, c.2.tail)) := by
  unfold dropna
  apply List.map_congr_left
  intro c hc
  have hkeep := keep_eq_range' df1 n hn hheight h0 h1
  rw [hkeep]
  have htails := map_getD_range' none c.2
  rw [hlen c hc] at htails
  rw [htails]

lemma string_append_pct_length (s : String) :
    (s ++ "_pct_change").length = s.length + 11 := by
  have h11 : ("_pct_change" : String).length = 11 := by decide
  rw [String.length_append, h11]

lemma append_pct_not_mem_scaler (s : String) :
    s ++ "_pct_change" ∉ DataTransformation.exclude_columns_scaler := by
  intro h
  simp only [DataTransformation.exclude_columns_scaler, List.mem_cons,
    List.not_mem_nil, or_false] at h
  rcases h with h | h | h
  · have hlen := congrArg String.length h
    rw [string_append_pct_length] at hlen
    have h8 : ("Datetime" : String).length = 8 := by decide
    rw [h8] at hlen
    omega
  · have hlen := congrArg String.length h
    rw [string_append_pct_length] at hlen
    have h4 : ("Date" : String).length = 4 := by decide
    rw [h4] at hlen
    omega
  · have hlen := congrArg String.length h
    rw [string_append_pct_length] at hlen
    have h7 : ("Anomaly" : String).length = 7 := by decide
    rw [h7] at hlen
    omega

lemma compute_percent_variation_eq (df : Table) (exclude : List String) (n : ℕ)
    (hn : 0 < n)
    (hlen : ∀ c ∈ df, (c.2 : List (Option ℚ)).length = n)
    (hsome : ∀ c ∈ df, ∀ v ∈ c.2, v.isSome = true)
    (_hnz : ∀ c ∈ df, c.1 ∉ exclude → ∀ v ∈ c.2, v ≠ some 0)
    (hfeat : ∃ c ∈ df, c.1 ∉ exclude) :
    DataTransformation.compute_percent_variation df exclude
      = df.map (fun c => (c.1, c.2.tail))
        ++ (df.filter (fun c => decide (c.1 ∉ exclude))).map
            (fun c => (c.1 ++ "_pct_change", (pct_change c.2).tail)) := by
  have hlen1 : ∀ c ∈ df ++ (df.filter (fun c => decide (c.1 ∉ exclude))).map
      (fun c => (c.1 ++ "_pct_change", pct_change c.2)), c.2.length = n := by
    intro c hc
    rcases List.mem_append.1 hc with h | h
    · exact hlen c h
    · obtain ⟨d, hd, rfl⟩ := List.mem_map.1 h
      show (pct_change d.2).length = n
      rw [pct_change_length]
      exact hlen d (List.mem_filter.1 hd).1
  have hheight : tableHeight (df ++ (df.filter (fun c => decide (c.1 ∉ exclude))).map
      (fun c => (c.1 ++ "_pct_change", pct_change c.2))) = n := by
    obtain ⟨c0, hc0, -⟩ := hfeat
    cases hdf : df with
    | nil =>
      rw [hdf] at hc0
      cases hc0
    | cons c cs =>
      show tableHeight ((c :: cs) ++ _) = n
      have : tableHeight ((c :: cs) ++ (((c :: cs).filter
          (fun c => decide (c.1 ∉ exclude))).map
          (fun c => (c.1 ++ "_pct_change", pct_change c.2)))) = c.2.length := rfl
      rw [this]
      exact hlen c (by rw [hdf]; exact List.mem_cons_self c cs)
  have h0row : rowComplete (df ++ (df.filter (fun c => decide (c.1 ∉ exclude))).map
      (fun c => (c.1 ++ "_pct_change", pct_change c.2))) 0 = false := by
    obtain ⟨c0, hc0, hc0ex⟩ := hfeat
    apply List.all_eq_false.2
    refine ⟨(c0.1 ++ "_pct_change", pct_change c0.2), ?_, ?_⟩
    · apply List.mem_append_right
      exact List.mem_map.2 ⟨c0, List.mem_filter.2 ⟨hc0, decide_eq_true hc0ex⟩, rfl⟩
    · have hc0len : c0.2.length = n := hlen c0 hc0
      have hzero : (pct_change c0.2).getD 0 none = none :=
        pct_change_getD_zero c0.2 (by omega)
      show ¬((pct_change c0.2).getD 0 none).isSome = true
      rw [hzero]
      simp
  have h1row : ∀ i, 0 < i → i < n →
      rowComplete (df ++ (df.filter (fun c => decide (c.1 ∉ exclude))).map
        (fun c => (c.1 ++ "_pct_change", pct_change c.2))) i = true := by
    intro i hi0 hin
    apply List.all_eq_true.2
    intro c hc
    rcases List.mem_append.1 hc with h | h
    · have hclen := hlen c h
      show (c.2.getD i none).isSome = true
      have hmem : c.2.getD i none ∈ c.2 := by
        rw [List.getD_eq_getElem _ _ (by omega)]
        exact List.getElem_mem _
      exact hsome c h _ hmem
    · obtain ⟨d, hd, rfl⟩ := List.mem_map.1 h
      have hdmem := (List.mem_filter.1 hd).1
      show ((pct_change d.2).getD i none).isSome = true
      exact pct_change_getD_isSome d.2 i (hsome d hdmem) hi0
        (by rw [hlen d hdmem]; omega)
  unfold DataTransformation.compute_percent_variation
  rw [dropna_eq_tails _ n hn hheight hlen1 h0row h1row]
  rw [List.map_append, List.map_map]
  rfl

/-! ### Claim theorems: table stages -/

/-- Claim C8, counterexample: a table with only a Close column (no
Datetime, no Date) is NOT skipped by the indicator-integration stage:
`integrate_technical_indicators` returns it unchanged and the main loop
still writes an output file for it (the dropna of the unchanged table),
contradicting the claim that every stage skips such a file with no
output written. -/
theorem no_time_column_counterexample :
    "Datetime" ∉ colNames [("Close", [some (1 : ℚ), some 2])]
    ∧ "Date" ∉ colNames [("Close", [some (1 : ℚ), some 2])]
    ∧ IntegrateIndicators.main_output id [("Close", [some (1 : ℚ), some 2])]
        = some [("Close", [some (1 : ℚ), some 2])] := by
  decide

/-- Claim C8, amended: only the transformation stage
(data_transformation.py) skips a file that has neither a Datetime nor a
Date column (it returns no output); the indicator-integration stage
warns but passes the table through unchanged and still writes an output
(the table after dropping incomplete rows). -/
theorem no_time_column_amended (scale : List (Option ℚ) → List (Option ℚ))
    (addInd : Table → Table) (df : Table)
    (h1 : "Datetime" ∉ colNames df) (h2 : "Date" ∉ colNames df) :
    DataTransformation.process_file scale df = none
    ∧ IntegrateIndicators.main_output addInd df = some (dropna df) := by
  constructor
  · unfold DataTransformation.process_file
    rw [if_neg (not_or.2 ⟨h1, h2⟩)]
  · unfold IntegrateIndicators.main_output IntegrateIndicators.process_file
      IntegrateIndicators.integrate_technical_indicators
    rw [if_neg (not_or.2 ⟨h1, h2⟩)]
    rfl

/-- Witness for the amended C8 on a one-column table. -/
theorem no_time_column_amended_witness :
    DataTransformation.process_file id [("Close", [some (1 : ℚ)])] = none
    ∧ IntegrateIndicators.main_output id [("Close", [some (1 : ℚ)])]
        = some (dropna [("Close", [some (1 : ℚ)])]) :=
  no_time_column_amended id id [("Close", [some (1 : ℚ)])] (by decide) (by decide)

/-- Claim C9, counterexample: on the table with columns Datetime, Close,
Volume, Anomaly (Close = [1, 2, 4]), the transformation-stage output
(scaler instantiated with the identity to expose the structure) still
contains the ORIGINAL Close values [2, 4] (so feature columns are not
replaced by their percent change, which would be [1, 1]), it contains a
new companion column Close_pct_change, and it contains no
Volume_pct_change column at all (Volume is excluded from the percent
change step). -/
theorem transformation_replacement_counterexample :
    ("Close", [some (2 : ℚ), some 4]) ∈
      DataTransformation.robust_scaling id
        (DataTransformation.compute_percent_variation
          [("Datetime", [some (10 : ℚ), some 20, some 30]),
           ("Close", [some (1 : ℚ), some 2, some 4]),
           ("Volume", [some (5 : ℚ), some 5, some 5]),
           ("Anomaly", [some (0 : ℚ), some 1, some 0])]
          DataTransformation.exclude_columns_pct)
        DataTransformation.exclude_columns_scaler
    ∧ "Close_pct_change" ∈ colNames
        (DataTransformation.robust_scaling id
          (DataTransformation.compute_percent_variation
            [("Datetime", [some (10 : ℚ), some 20, some 30]),
             ("Close", [some (1 : ℚ), some 2, some 4]),
             ("Volume", [some (5 : ℚ), some 5, some 5]),
             ("Anomaly", [some (0 : ℚ), some 1, some 0])]
            DataTransformation.exclude_columns_pct)
          DataTransformation.exclude_columns_scaler)
    ∧ "Volume_pct_change" ∉ colNames
        (DataTransformation.robust_scaling id
          (DataTransformation.compute_percent_variation
            [("Datetime", [some (10 : ℚ), some 20, some 30]),
             ("Close", [some (1 : ℚ), some 2, some 4]),
             ("Volume", [some (5 : ℚ), some 5, some 5]),
             ("Anomaly", [some (0 : ℚ), some 1, some 0])]
            DataTransformation.exclude_columns_pct)
          DataTransformation.exclude_columns_scaler)
    ∧ [some (2 : ℚ), some 4] ≠ [some (1 : ℚ), some 1] := by
  decide

/-- Claim C9, amended: for every rectangular, fully populated table with
at least one feature column and no zero cell in any feature column
(zero previous values make pandas `pct_change` non-finite — the spec's
§7(b) division-by-zero carve-out, outside this rational embedding), the
transformation stage KEEPS every original column, APPENDS a
`<name>_pct_change` companion for every column outside {Datetime, Date,
Anomaly, Volume} (Volume is excluded from percent change), drops the
leading undefined row everywhere, and then scales every column outside
{Datetime, Date, Anomaly} — including Volume, the retained originals
and the appended companions — while the label and time columns pass
through unscaled. -/
theorem transformation_stage_amended (scale : List (Option ℚ) → List (Option ℚ))
    (df : Table) (n : ℕ) (hn : 0 < n)
    (hlen : ∀ c ∈ df, (c.2 : List (Option ℚ)).length = n)
    (hsome : ∀ c ∈ df, ∀ v ∈ c.2, v.isSome = true)
    (hnz : ∀ c ∈ df, c.1 ∉ DataTransformation.exclude_columns_pct →
      ∀ v ∈ c.2, v ≠ some 0)
    (hfeat : ∃ c ∈ df, c.1 ∉ DataTransformation.exclude_columns_pct) :
    DataTransformation.robust_scaling scale
        (DataTransformation.compute_percent_variation df
          DataTransformation.exclude_columns_pct)
        DataTransformation.exclude_columns_scaler
      = df.map (fun c =>
          if c.1 ∈ DataTransformation.exclude_columns_scaler then (c.1, c.2.tail)
          else (c.1, scale c.2.tail))
        ++ (df.filter
            (fun c => decide (c.1 ∉ DataTransformation.exclude_columns_pct))).map
            (fun c => (c.1 ++ "_pct_change", scale ((pct_change c.2).tail))) := by
  rw [compute_percent_variation_eq df _ n hn hlen hsome hnz hfeat]
  unfold DataTransformation.robust_scaling
  rw [List.map_append, List.map_map, List.map_map]
  congr 1
  apply List.map_congr_left
  intro c hc
  show (if c.1 ++ "_pct_change" ∈ DataTransformation.exclude_columns_scaler then
      (c.1 ++ "_pct_change", (pct_change c.2).tail)
    else (c.1 ++ "_pct_change", scale ((pct_change c.2).tail)))
      = (c.1 ++ "_pct_change", scale ((pct_change c.2).tail))
  rw [if_neg (append_pct_not_mem_scaler c.1)]

/-- Witness for the amended C9 on the four-column table with n = 3 and
the identity scaler. -/
theorem transformation_stage_amended_witness :
    DataTransformation.robust_scaling id
        (DataTransformation.compute_percent_variation
          [("Datetime", [some (10 : ℚ), some 20, some 30]),
           ("Close", [some (1 : ℚ), some 2, some 4]),
           ("Volume", [some (5 : ℚ), some 5, some 5]),
           ("Anomaly", [some (0 : ℚ), some 1, some 0])]
          DataTransformation.exclude_columns_pct)
        DataTransformation.exclude_columns_scaler
      = ([("Datetime", [some (10 : ℚ), some 20, some 30]),
          ("Close", [some (1 : ℚ), some 2, some 4]),
          ("Volume", [some (5 : ℚ), some 5, some 5]),
          ("Anomaly", [some (0 : ℚ), some 1, some 0])] : Table).map (fun c =>
            if c.1 ∈ DataTransformation.exclude_columns_scaler then (c.1, c.2.tail)
            else (c.1, id c.2.tail))
        ++ (([("Datetime", [some (10 : ℚ), some 20, some 30]),
          ("Close", [some (1 : ℚ), some 2, some 4]),
          ("Volume", [some (5 : ℚ), some 5, some 5]),
          ("Anomaly", [some (0 : ℚ), some 1, some 0])] : Table).filter
            (fun c => decide (c.1 ∉ DataTransformation.exclude_columns_pct))).map
            (fun c => (c.1 ++ "_pct_change", id ((pct_change c.2).tail))) :=
  transformation_stage_amended id
    [("Datetime", [some (10 : ℚ), some 20, some 30]),
     ("Close", [some (1 : ℚ), some 2, some 4]),
     ("Volume", [some (5 : ℚ), some 5, some 5]),
     ("Anomaly", [some (0 : ℚ), some 1, some 0])] 3 (by decide)
    (by decide) (by decide) (by decide)
    ⟨("Close", [some (1 : ℚ), some 2, some 4]), by decide, by decide⟩
